import Mathlib

/-!
Shallow embedding of the option-resolution and screenshot-orchestration core of
the `nuxt-og-image` module (`src/module.ts` and the prerender Nitro plugin).

Partial JavaScript option records are modelled as structures of `Option` fields;
a JS object spread `\x7b...a, ...b\x7d` becomes a field-by-field `Option.orElse`
merge where `b`'s present fields win.  External collaborators (the markup
extractor `extractOgImageOptions`, `$fetch`, the storage layer, subprocesses,
wall-clock time) are oracle parameters.
-/

namespace NuxtOgImage

/-- JavaScript strings, modelled as their character sequences. -/
abbrev Str := List Char

/-- The option fields carried by an `OgImageOptions` record that the module
merges (extracted payload, route-rule `ogImage` overlays, `config.defaults`).
Every field is optional: a JS partial record. -/
structure OgImageOpts where
  component : Option Str := none
  width : Option Nat := none
  height : Option Nat := none
  provider : Option Str := none
  static : Option Bool := none
  path : Option Str := none
  deriving Repr, DecidableEq

/-- JS object spread `\x7b ...a, ...b \x7d`: fields present on `b` override `a`. -/
def mergeRight (a b : OgImageOpts) : OgImageOpts where
  component := b.component <|> a.component
  width := b.width <|> a.width
  height := b.height <|> a.height
  provider := b.provider <|> a.provider
  static := b.static <|> a.static
  path := b.path <|> a.path

/-- The value of the `ogImage` key of one matched nitro route rule:
either the sentinel `false` (disable generation) or a partial options record. -/
inductive OgOverlay where
  | disable
  | opts (o : OgImageOpts)
  deriving Repr, DecidableEq

/-- `defu` combination of the `ogImage` key of two route-rule records, `x` being
the leftmost (higher-priority) argument: a defined non-object value (`false`) on
the left is kept, two objects are merged with the left's fields winning, and an
absent left key is filled from the right. -/
def defuOg (x y : Option OgOverlay) : Option OgOverlay :=
  match x, y with
  | none, y => y
  | some OgOverlay.disable, _ => some OgOverlay.disable
  | some (OgOverlay.opts a), some (OgOverlay.opts b) => some (OgOverlay.opts (mergeRight b a))
  | some (OgOverlay.opts a), _ => some (OgOverlay.opts a)

/-- `defu(\x7b\x7d, ..._routeRulesMatcher.matchAll(route).reverse())` projected to the
`ogImage` key (module.ts line 344).  `matched` is the `matchAll` result, ordered
least-specific first as radix3 returns it; the code reverses it and folds `defu`
left-to-right so the most specific rule's fields win. -/
def foldOgRules (matched : List (Option OgOverlay)) : Option OgOverlay :=
  matched.reverse.foldl defuOg none

/-- The option-resolution pipeline as the code composes it: the route-rule fold
(module.ts line 344), the skip on a `false` overlay (line 345), the entry spread
`\x7b ...extractedOptions, ...(routeRules.ogImage || \x7b\x7d) \x7d` (lines 348-353)
and the capture-time defaults spread `\x7b ...config.defaults, ...entry \x7d`
(lines 429-431).  `e` is the extracted record, `matched` the `matchAll` result
(least-specific first), `d` the configured defaults. -/
def resolve (e : OgImageOpts) (matched : List (Option OgOverlay)) (d : OgImageOpts) :
    Option OgImageOpts :=
  match foldOgRules matched with
  | some OgOverlay.disable => none
  | some (OgOverlay.opts og) => some (mergeRight d (mergeRight e og))
  | none => some (mergeRight d e)

theorem orElse3 {α : Type} (x y z : Option α) : ((x <|> y) <|> z) = (x <|> (y <|> z)) := by
  cases x <;> rfl

theorem mergeRight_assoc (a b c : OgImageOpts) :
    mergeRight (mergeRight a b) c = mergeRight a (mergeRight b c) := by
  simp only [mergeRight, orElse3]

theorem foldOgRules_cons (x : Option OgOverlay) (l : List (Option OgOverlay)) :
    foldOgRules (x :: l) = defuOg (foldOgRules l) x := by
  simp [foldOgRules, List.foldl_append]

/-- On a matched list whose rules all carry object overlays, the `defu` fold
yields the overlay record that, merged over any base, equals folding the
overlays least-specific-first over that base with override-wins spreads. -/
theorem foldOgRules_opts (o1 : OgImageOpts) (rest : List OgImageOpts) :
    ∃ og, foldOgRules ((o1 :: rest).map (fun o => some (OgOverlay.opts o)))
            = some (OgOverlay.opts og)
      ∧ ∀ base, mergeRight base og = (o1 :: rest).foldl mergeRight base := by
  induction rest generalizing o1 with
  | nil =>
      refine ⟨o1, rfl, fun base => ?_⟩
      simp
  | cons o2 rest ih =>
      obtain ⟨og2, hF, hM⟩ := ih o2
      refine ⟨mergeRight o1 og2, ?_, fun base => ?_⟩
      · simp only [List.map_cons] at hF ⊢
        rw [foldOgRules_cons, hF]
        rfl
      · have h1 : (o1 :: o2 :: rest).foldl mergeRight base
            = (o2 :: rest).foldl mergeRight (mergeRight base o1) := by simp
        rw [h1, ← hM (mergeRight base o1), mergeRight_assoc]

/-- The override-wins law of the resolution pipeline: with every matched rule
carrying an object overlay, the resolved record is the least-specific-first
fold of the overlays over the defaults-then-extracted base. -/
theorem resolve_opts_foldl (e d : OgImageOpts) (ovs : List OgImageOpts) :
    resolve e (ovs.map (fun o => some (OgOverlay.opts o))) d
      = some (ovs.foldl mergeRight (mergeRight d e)) := by
  cases ovs with
  | nil => rfl
  | cons o1 rest =>
      obtain ⟨og, hF, hM⟩ := foldOgRules_opts o1 rest
      simp only [resolve, hF, ← hM (mergeRight d e), mergeRight_assoc]

theorem foldl_defuOg_disable (l : List (Option OgOverlay)) :
    l.foldl defuOg (some OgOverlay.disable) = some OgOverlay.disable := by
  induction l with
  | nil => rfl
  | cons x l ih => simpa [defuOg] using ih

/-- A `false` overlay on the most specific matched rule survives the `defu`
fold: the folded `ogImage` key is exactly `false`. -/
theorem foldOgRules_concat_disable (l : List (Option OgOverlay)) :
    foldOgRules (l ++ [some OgOverlay.disable]) = some OgOverlay.disable := by
  have h : (l ++ [some OgOverlay.disable]).reverse = some OgOverlay.disable :: l.reverse := by
    simp
  rw [foldOgRules, h, List.foldl_cons]
  exact foldl_defuOg_disable _

/-! ## The `prerender:generate` hook (module.ts lines 332-358) -/

/-- JS truthiness of an optional string field: present and non-empty. -/
def truthyStr : Option Str → Bool
  | some s => !s.isEmpty
  | none => false

/-- The html-proxy path used when the extracted options carry a component:
`/api/og-image-html?path=$\x7broute\x7d` (module.ts line 350). -/
def apiHtmlPath (route : Str) : Str := "/api/og-image-html?path=".toList ++ route

/-- A queue entry as built at module.ts lines 348-353: concrete `route` and
`path` plus the spread of the extracted options and the folded route-rule
overlay, the overlay's fields winning. -/
structure Entry where
  route : Str
  path : Str
  component : Option Str := none
  width : Option Nat := none
  height : Option Nat := none
  provider : Option Str := none
  static : Option Bool := none
  html : Option Str := none
  deriving Repr, DecidableEq

/-- `\x7b route, path: extractedOptions.component ? api : route, ...extractedOptions,
...(routeRules.ogImage || \x7b\x7d) \x7d` (module.ts lines 348-353). -/
def mkEntry (route : Str) (e og : OgImageOpts) : Entry where
  route := route
  path := (og.path <|> e.path).getD (if truthyStr e.component then apiHtmlPath route else route)
  component := og.component <|> e.component
  width := og.width <|> e.width
  height := og.height <|> e.height
  provider := og.provider <|> e.provider
  static := og.static <|> e.static

/-- Result of one `prerender:generate` invocation: the screenshot queue after
the hook, the entry it resolved (none on any early return), and whether
`extractOgImageOptions` was invoked. -/
structure GenerateResult where
  queue : List Entry
  entry : Option Entry
  ranExtraction : Bool
  deriving Repr, DecidableEq

/-- The `prerender:generate` hook (module.ts lines 332-358).  `generate` is
`nuxt.options._generate`, `extract` the external `extractOgImageOptions`,
`matched` the `matchAll` result for `ctx.route` (least-specific first),
`contents` the rendered html (`none`/empty are falsy). -/
def prerenderGenerate (generate : Bool) (extract : Str → Option OgImageOpts)
    (matched : List (Option OgOverlay)) (route : Str) (contents : Option Str)
    (queue : List Entry) : GenerateResult :=
  if route.contains '.' then ⟨queue, none, false⟩
  else
    match contents with
    | none => ⟨queue, none, false⟩
    | some html =>
      if html.isEmpty then ⟨queue, none, false⟩
      else
        match extract html with
        | none => ⟨queue, none, true⟩
        | some e =>
          let folded := foldOgRules matched
          if folded = some OgOverlay.disable then ⟨queue, none, true⟩
          else
            let entry := mkEntry route e
              (match folded with | some (OgOverlay.opts o) => o | _ => {})
            if (generate = true ∨ entry.static = some true)
                ∧ entry.provider = some "browser".toList
            then ⟨queue ++ [entry], some entry, true⟩
            else ⟨queue, some entry, true⟩

/-! ## The prerender Nitro plugin (`OgImagePrenderNitroPlugin`) -/

/-- ufo's `joinURL` at the call shapes used here (the second segment always
starts with `/`): a trailing slash on the first segment is dropped before
concatenation. -/
def joinURL (a b : Str) : Str :=
  if a.getLast? = some '/' then a.dropLast ++ b else a ++ b

/-- The TTL of an option-cache entry: `options.static ? 60 * 60 * 1000 : 5 * 1000`
(plugin line 20). -/
def ogTtl (o : OgImageOpts) : Nat :=
  if o.static = some true then 60 * 60 * 1000 else 5 * 1000

/-- A record stored in `optionCacheStorage`: `\x7b value, expiresAt \x7d`. -/
structure CacheEntry where
  value : OgImageOpts
  expiresAt : Nat
  deriving Repr, DecidableEq

/-- Result of one `render:html` invocation of the prerender plugin: the cache
write (url with the stored record), the appended response header, and whether
`extractOgImageOptions` was invoked. -/
structure RenderResult where
  cacheWrite : Option (Str × CacheEntry)
  header : Option (Str × Str)
  ranExtraction : Bool
  deriving Repr, DecidableEq

/-- The plugin's `render:html` hook (plugin lines 13-23).  `forcePrerender` is
the runtime-config flag, `extract` the external `extractOgImageOptions`, `now`
`Date.now()`, `headHtml` the joined head markup. -/
def renderHtml (forcePrerender : Bool) (extract : Str → Option OgImageOpts)
    (now : Nat) (url : Str) (headHtml : Str) : RenderResult :=
  if url.contains '.' || List.isPrefixOf "/__nuxt_island/".toList url then
    ⟨none, none, false⟩
  else
    match extract headHtml with
    | none => ⟨none, none, true⟩
    | some o =>
      ⟨some (url, ⟨o, now + ogTtl o⟩),
       if (forcePrerender = true ∨ o.static = some true) ∧ o.provider = some "satori".toList
       then some ("x-nitro-prerender".toList, joinURL url "/__og_image__/og.png".toList)
       else none,
       true⟩

/-! ## `loadFont` (second source part of module.ts's repo slice) -/

/-- A resolved font reference: family name, weight, optional storage key,
optional local path, optional binary data (bytes). -/
structure FontConfig where
  name : Str
  weight : Nat
  key : Option Str := none
  path : Option Str := none
  data : Option (List Nat) := none
  deriving Repr, DecidableEq

/-- One operation against the `assets` storage. -/
inductive StorageOp where
  | hasItem (key : Str)
  | getItem (key : Str)
  | setItem (key : Str) (value : Str)
  deriving Repr, DecidableEq

/-- The fallback endpoint `/__og-image__/font/$\x7bname\x7d/$\x7bweight\x7d.ttf`. -/
def fontEndpoint (name : Str) (weight : Nat) : Str :=
  "/__og-image__/font/".toList ++ name ++ "/".toList ++ (toString weight).toList
    ++ ".ttf".toList

/-- `loadFont`: inline data is returned unchanged; otherwise a truthy `key` is
looked up in the `assets` storage and a hit is base64-decoded; otherwise the
font is fetched from `font.path` if truthy, else from the font endpoint.
`cache` is the storage content, `b64decode` the `Buffer.from(-, 'base64')`
read-back, `fetchBuf` the `$fetch` collaborator; the second component records
every storage operation performed. -/
def loadFont (cache : Str → Option Str) (b64decode : Str → List Nat)
    (fetchBuf : Str → List Nat) (font : FontConfig) : FontConfig × List StorageOp :=
  if font.data.isSome then (font, [])
  else
    let fetched : List StorageOp → FontConfig × List StorageOp := fun ops =>
      if truthyStr font.path then
        ({ font with data := some (fetchBuf (font.path.getD [])) }, ops)
      else
        ({ font with data := some (fetchBuf (fontEndpoint font.name font.weight)) }, ops)
    match font.key with
    | some k =>
        if k.isEmpty then fetched []
        else
          match cache k with
          | some stored =>
              ({ font with data := some (b64decode stored) },
               [StorageOp.hasItem k, StorageOp.getItem k])
          | none => fetched [StorageOp.hasItem k]
    | none => fetched []

/-! ## The capture pass (module.ts lines 421-447) -/

/-- `Math.round((k + 1) / n * 100)` computed exactly on rationals:
`floor(x + 1/2)` of `(k + 1) * 100 / n`. -/
def jsRound100 (k n : Nat) : Nat := (2 * ((k + 1) * 100) + n) / (2 * n)

/-- `joinURL(publicDir, entry.route, '/__og_image__/')` (line 425). -/
def ogDirname (publicDir route : Str) : Str :=
  joinURL (joinURL publicDir route) "/__og_image__/".toList

/-- `joinURL(dirname, '/og.png')` (line 426). -/
def ogFilename (publicDir route : Str) : Str :=
  joinURL (ogDirname publicDir route) "/og.png".toList

/-- One progress line (lines 444-446): the logged route, elapsed milliseconds,
cumulative rounded percentage, the last-entry marker, and the red/gray error
colouring.  The source prints the filename relative to `publicDir`; the route
determines it. -/
structure CaptureLine where
  route : Str
  ms : Nat
  pct : Nat
  last : Bool
  err : Bool
  deriving Repr, DecidableEq

/-- Outcome of one `screenshot(browser, ...)` call: bytes, or a thrown error. -/
inductive ShotResult where
  | ok (bytes : List Nat)
  | err
  deriving Repr, DecidableEq

/-- The capture pass's observable output: the files written and the progress
lines logged, in order. -/
structure CaptureOut where
  writes : List (Str × List Nat)
  lines : List CaptureLine
  deriving Repr, DecidableEq

/-- One iteration of the capture loop (lines 422-446): the screenshot and the
file write sit in a per-job `try`; a failure of either sets `hasError`, skips
the write, and still yields exactly one progress line.  (`mkdirp` failures are
swallowed by an inner empty `catch` and change nothing observable.)  `wrOk`
tells whether `writeFile` succeeds. -/
def captureOne (publicDir : Str) (n k : Nat) (e : Entry) (shotRes : ShotResult)
    (wrOk : Bool) (elapsed : Nat) : Option (Str × List Nat) × CaptureLine :=
  let filename := ogFilename publicDir e.route
  match shotRes with
  | ShotResult.ok bytes =>
      if wrOk then
        (some (filename, bytes), ⟨e.route, elapsed, jsRound100 k n, decide (k = n - 1), false⟩)
      else
        (none, ⟨e.route, elapsed, jsRound100 k n, decide (k = n - 1), true⟩)
  | ShotResult.err =>
      (none, ⟨e.route, elapsed, jsRound100 k n, decide (k = n - 1), true⟩)

/-- The sequential loop `for (const k in screenshotQueue)` over the indexed
queue; `n` is the queue length. -/
def captureAux (publicDir : Str) (n : Nat) (shot : Nat → ShotResult) (wr : Nat → Bool)
    (ms : Nat → Nat) : List (Nat × Entry) → CaptureOut
  | [] => ⟨[], []⟩
  | (k, e) :: rest =>
      let step := captureOne publicDir n k e (shot k) (wr k) (ms k)
      let restOut := captureAux publicDir n shot wr ms rest
      ⟨step.1.toList ++ restOut.writes, step.2 :: restOut.lines⟩

/-- The whole capture pass over a queue, with per-index oracles for the
screenshot outcome, the write outcome and the measured elapsed time. -/
def capturePass (publicDir : Str) (queue : List Entry) (shot : Nat → ShotResult)
    (wr : Nat → Bool) (ms : Nat → Nat) : CaptureOut :=
  captureAux publicDir queue.length shot wr ms queue.enum

/-! ## The drain orchestrator `captureScreenshots` (module.ts lines 363-461) -/

/-- A queue element: route-only stubs may be inserted by the
`og-image:prerenderScreenshots` hook; the `prerender:generate` hook pushes full
entries. -/
inductive Job where
  | stub (route : Str)
  | full (e : Entry)
  deriving Repr, DecidableEq

/-- Completion of one queued job (lines 403-418): a route-only stub fetches its
html over the preview server and re-runs extraction and the rule merge in place
(this pass treats a `false` overlay as `\x7b\x7d`, and property access on a falsy
extraction result yields undefined fields); afterwards a component-backed entry
fetches its rendered html from `entry.path`. -/
def completeJob (fetchHtml : Str → Except Str Str) (extract : Str → Option OgImageOpts)
    (rules : Str → List (Option OgOverlay)) (j : Job) : Except Str Entry := do
  let e0 ← match j with
    | Job.stub r => do
        let html ← fetchHtml r
        let ex := (extract html).getD {}
        let og := match foldOgRules (rules r) with
          | some (OgOverlay.opts o) => o
          | _ => {}
        pure (mkEntry r ex og)
    | Job.full e => pure e
  if truthyStr e0.component then do
    let h ← fetchHtml e0.path
    pure { e0 with html := some h }
  else
    pure e0

/-- The completion loop `for (const entry of screenshotQueue)`: a fetch failure
anywhere aborts the pass (caught only by the drain's outer `catch`). -/
def completionPass (fetchHtml : Str → Except Str Str) (extract : Str → Option OgImageOpts)
    (rules : Str → List (Option OgOverlay)) : List Job → Except Str (List Entry)
  | [] => Except.ok []
  | j :: js => do
      let e ← completeJob fetchHtml extract rules j
      let rest ← completionPass fetchHtml extract rules js
      pure (e :: rest)

/-- Observable drain events, in order. -/
inductive Ev where
  | logInfoInstall
  | logErrorInstall
  | spawnServer
  | attemptBrowser
  | logPrerenderCount (n : Nat)
  | logBrowserFailed
  | logErrorCaught
  | progress (l : CaptureLine)
  | closeBrowser
  | killServer
  deriving Repr, DecidableEq

/-- What `createBrowser()` does: returns a browser, returns null, or throws. -/
inductive BrowserOutcome where
  | ok
  | null
  | thrown
  deriving Repr, DecidableEq

/-- The external collaborators of one drain: installer exit code, browser
launch outcome, preview-server fetch, extractor, route rules, and the per-job
capture oracles. -/
structure DrainOracles where
  installExit : Int
  browserRes : BrowserOutcome
  fetchHtml : Str → Except Str Str
  extract : Str → Option OgImageOpts
  rules : Str → List (Option OgOverlay)
  shot : Nat → ShotResult
  wr : Nat → Bool
  ms : Nat → Nat

/-- The state a drain leaves behind: whether the browser and the preview-server
subprocess are still alive, the module-level `screenshotQueue`, and the
accumulated events, file writes and progress lines. -/
structure DrainOut where
  browserOpen : Bool
  serverRunning : Bool
  queue : List Job
  events : List Ev
  writes : List (Str × List Nat)
  lines : List CaptureLine
  deriving Repr, DecidableEq

/-- `captureScreenshots` (lines 363-461).  The `og-image:prerenderScreenshots`
hook runs first and may mutate the queue; `queue` is the post-hook queue.  The
preview server's readiness line is assumed to arrive (the source waits
unboundedly).  The `try` body's thrown-or-not outcome and the browser variable
at exit are threaded to the `catch` and `finally` clauses exactly as in the
source: the error is logged and swallowed, `finally` closes a non-null browser
and kills the preview process, and only then is the queue reset to `[]`. -/
def captureScreenshots (publicDir : Str) (o : DrainOracles) (queue : List Job) : DrainOut :=
  if queue.isEmpty then
    { browserOpen := false, serverRunning := false, queue := queue
      events := [], writes := [], lines := [] }
  else
    let ev0 := [Ev.logInfoInstall]
      ++ (if o.installExit ≠ 0 then [Ev.logErrorInstall] else [])
    let ev1 := ev0 ++ [Ev.spawnServer]
    let tryOut : List Ev × List (Str × List Nat) × List CaptureLine × Bool × Bool :=
      match o.browserRes with
      | BrowserOutcome.thrown => (ev1 ++ [Ev.attemptBrowser], [], [], false, true)
      | BrowserOutcome.null =>
          (ev1 ++ [Ev.attemptBrowser, Ev.logBrowserFailed], [], [], false, false)
      | BrowserOutcome.ok =>
          let ev2 := ev1 ++ [Ev.attemptBrowser, Ev.logPrerenderCount queue.length]
          match completionPass o.fetchHtml o.extract o.rules queue with
          | Except.error _ => (ev2, [], [], true, true)
          | Except.ok entries =>
              let cs := capturePass publicDir entries o.shot o.wr o.ms
              (ev2 ++ cs.lines.map Ev.progress, cs.writes, cs.lines, true, false)
    match tryOut with
    | (evT, writes, lines, browserAtExit, threw) =>
      let mid : DrainOut :=
        { browserOpen := browserAtExit, serverRunning := true, queue := queue
          events := evT ++ (if threw then [Ev.logErrorCaught] else [])
          writes := writes, lines := lines }
      let afterClose : DrainOut :=
        { mid with browserOpen := false
                   events := mid.events ++ (if mid.browserOpen then [Ev.closeBrowser] else []) }
      let afterKill : DrainOut :=
        { afterClose with serverRunning := false
                          events := afterClose.events ++ [Ev.killServer] }
      { afterKill with queue := [] }

/-! ## Claim theorems -/

/-- C1: for every set of matching route overlays, the resolved options record
is a field-by-field shallow merge with precedence defaults < extracted <
overlays, the most specific overlay's fields winning: resolution equals
folding the overlays least-specific-first over the defaults-then-extracted
base, and in the two-overlay case `resolve(e, [o1, o2], d) = merge(d, e, o1, o2)`
with `o2` (last in `matchAll` order) the more specific. -/
theorem resolve_shallow_merge_precedence (e d o1 o2 : OgImageOpts)
    (ovs : List OgImageOpts) :
    resolve e (ovs.map (fun o => some (OgOverlay.opts o))) d
        = some (ovs.foldl mergeRight (mergeRight d e))
    ∧ resolve e [some (OgOverlay.opts o1), some (OgOverlay.opts o2)] d
        = some (mergeRight (mergeRight (mergeRight d e) o1) o2) := by
  refine ⟨resolve_opts_foldl e d ovs, ?_⟩
  have h := resolve_opts_foldl e d [o1, o2]
  simpa using h

/-- C2: when the most specific matched overlay is the sentinel `false`,
resolution skips: `resolve` yields no options record, and the
`prerender:generate` hook leaves the queue unchanged and produces no entry,
whatever the extracted directive. -/
theorem disable_overlay_skips (generate : Bool) (extract : Str → Option OgImageOpts)
    (matched : List (Option OgOverlay)) (route : Str) (contents : Option Str)
    (queue : List Entry) (e d : OgImageOpts) :
    (prerenderGenerate generate extract (matched ++ [some OgOverlay.disable])
        route contents queue).queue = queue
    ∧ (prerenderGenerate generate extract (matched ++ [some OgOverlay.disable])
        route contents queue).entry = none
    ∧ resolve e (matched ++ [some OgOverlay.disable]) d = none := by
  have hF := foldOgRules_concat_disable matched
  have hmain : ∃ b, prerenderGenerate generate extract
      (matched ++ [some OgOverlay.disable]) route contents queue
      = ⟨queue, none, b⟩ := by
    unfold prerenderGenerate
    simp only [hF, reduceIte]
    split
    · exact ⟨false, rfl⟩
    · cases contents with
      | none => exact ⟨false, rfl⟩
      | some html =>
          dsimp only
          split
          · exact ⟨false, rfl⟩
          · cases extract html with
            | none => exact ⟨true, rfl⟩
            | some e1 => exact ⟨true, rfl⟩
  obtain ⟨b, hb⟩ := hmain
  rw [hb]
  exact ⟨rfl, rfl, by simp [resolve, hF]⟩

/-- C6: the `prerender:generate` hook appends the resolved entry to the
screenshot queue exactly when its provider is `'browser'` and either the build
is a full static export (`nuxt.options._generate`) or the entry is marked
static; in every other case the queue is unchanged. -/
theorem enqueue_iff_browser_and_eligible (generate : Bool)
    (extract : Str → Option OgImageOpts) (matched : List (Option OgOverlay))
    (route : Str) (contents : Option Str) (queue : List Entry) :
    (prerenderGenerate generate extract matched route contents queue).queue
      = queue ++
        (match (prerenderGenerate generate extract matched route contents queue).entry with
         | some en =>
             if (generate = true ∨ en.static = some true)
                 ∧ en.provider = some "browser".toList
             then [en] else []
         | none => []) := by
  unfold prerenderGenerate
  split
  · simp
  · cases contents with
    | none => simp
    | some html =>
        dsimp only
        split
        · simp
        · cases extract html with
          | none => simp
          | some e =>
              dsimp only
              split
              · simp
              · split
                · next hcond => dsimp only; rw [if_pos hcond]
                · next hcond => dsimp only; rw [if_neg hcond, List.append_nil]

/-- C7: a route whose path contains a `.` makes the `prerender:generate` hook
return before extraction (queue untouched, no entry, extractor not invoked),
and a url containing a `.` or naming an island sub-fragment makes the
prerender plugin's `render:html` hook return before extraction (no cache
write, no header, extractor not invoked), whatever the markup. -/
theorem dot_and_island_excluded :
    (∀ (generate : Bool) (extract : Str → Option OgImageOpts)
        (matched : List (Option OgOverlay)) (route : Str) (contents : Option Str)
        (queue : List Entry), route.contains '.' = true →
        prerenderGenerate generate extract matched route contents queue
          = ⟨queue, none, false⟩)
    ∧ (∀ (fp : Bool) (extract : Str → Option OgImageOpts) (now : Nat)
        (url headHtml : Str),
        (url.contains '.' = true ∨ List.isPrefixOf "/__nuxt_island/".toList url = true) →
        renderHtml fp extract now url headHtml = ⟨none, none, false⟩) := by
  constructor
  · intro g ex m r c q h
    unfold prerenderGenerate
    rw [if_pos h]
  · intro fp ex now url head h
    have hb : (url.contains '.' || List.isPrefixOf "/__nuxt_island/".toList url) = true := by
      rw [Bool.or_eq_true]; exact h
    unfold renderHtml
    rw [if_pos hb]

/-- Witness for C7 at `/sitemap.xml` and an island fragment url. -/
theorem dot_and_island_excluded_w :
    prerenderGenerate false (fun _ => none) [] "/sitemap.xml".toList none []
        = ⟨[], none, false⟩
    ∧ renderHtml false (fun _ => none) 0 "/__nuxt_island/OgImageBasic".toList []
        = ⟨none, none, false⟩ :=
  ⟨dot_and_island_excluded.1 false (fun _ => none) [] "/sitemap.xml".toList none []
      (by decide),
   dot_and_island_excluded.2 false (fun _ => none) 0 "/__nuxt_island/OgImageBasic".toList []
      (Or.inr (by decide))⟩

/-- C5: every cache entry the prerender plugin writes expires at the write
time plus 3600000 ms (one hour) when the extracted options are marked static
and plus 5000 ms otherwise, so the static TTL strictly exceeds the dynamic
TTL for otherwise identical options. -/
theorem cache_entry_ttl (fp : Bool) (extract : Str → Option OgImageOpts) (now : Nat)
    (url headHtml : Str) (o : OgImageOpts)
    (hguard : (url.contains '.' || List.isPrefixOf "/__nuxt_island/".toList url) = false)
    (hex : extract headHtml = some o) :
    (renderHtml fp extract now url headHtml).cacheWrite
        = some (url, ⟨o, now + (if o.static = some true then 3600000 else 5000)⟩)
    ∧ (∀ p : OgImageOpts,
        ogTtl { p with static := some true } > ogTtl { p with static := some false }) := by
  constructor
  · unfold renderHtml
    rw [if_neg (by rw [hguard]; exact Bool.false_ne_true), hex]
    have ht : ogTtl o = if o.static = some true then 3600000 else 5000 := by
      unfold ogTtl
      split <;> norm_num
    simp [ht]
  · intro p
    simp [ogTtl]

/-- Witness for C5: a static extraction on a clean url gets a one-hour expiry. -/
theorem cache_entry_ttl_w :
    (renderHtml false (fun _ => some { static := some true }) 7 "/about".toList []).cacheWrite
        = some ("/about".toList, ⟨{ static := some true }, 3600007⟩)
    ∧ ogTtl { static := some true } > ogTtl { static := some false } := by
  have h := cache_entry_ttl false (fun _ => some { static := some true }) 7 "/about".toList []
      { static := some true } (by decide) rfl
  refine ⟨?_, ?_⟩
  · rw [h.1]
    norm_num
  · have h2 := h.2 ({} : OgImageOpts)
    simpa using h2

/-- C10: the prerender plugin appends the `x-nitro-prerender` header with value
`joinURL(url, '/__og_image__/og.png')` exactly when the extracted options
select the satori provider and are marked static or the build force-prerenders;
any other provider, or a dynamic entry without force-prerender, gets none. -/
theorem satori_prerender_header (fp : Bool) (extract : Str → Option OgImageOpts)
    (now : Nat) (url headHtml : Str) (o : OgImageOpts)
    (hguard : (url.contains '.' || List.isPrefixOf "/__nuxt_island/".toList url) = false)
    (hex : extract headHtml = some o) :
    (renderHtml fp extract now url headHtml).header
      = if (fp = true ∨ o.static = some true) ∧ o.provider = some "satori".toList
        then some ("x-nitro-prerender".toList, joinURL url "/__og_image__/og.png".toList)
        else none := by
  unfold renderHtml
  rw [if_neg (by rw [hguard]; exact Bool.false_ne_true), hex]

/-- Witness for C10: a static satori extraction on `/about` gets the header
pointing at `/about/__og_image__/og.png`. -/
theorem satori_prerender_header_w :
    (renderHtml false (fun _ => some { provider := some "satori".toList, static := some true })
        0 "/about".toList []).header
      = some ("x-nitro-prerender".toList, "/about/__og_image__/og.png".toList) := by
  have h := satori_prerender_header false
      (fun _ => some { provider := some "satori".toList, static := some true })
      0 "/about".toList [] { provider := some "satori".toList, static := some true }
      (by decide) rfl
  rw [h, if_pos (by exact ⟨Or.inr rfl, rfl⟩)]
  have hj : joinURL "/about".toList "/__og_image__/og.png".toList
      = "/about/__og_image__/og.png".toList := by decide
  rw [hj]

theorem captureOne_line (publicDir : Str) (n k : Nat) (e : Entry) (sres : ShotResult)
    (w : Bool) (m : Nat) :
    (captureOne publicDir n k e sres w m).2
      = ⟨e.route, m, jsRound100 k n, decide (k = n - 1),
         match sres with
         | ShotResult.ok _ => !w
         | ShotResult.err => true⟩ := by
  cases sres <;> cases w <;> rfl

theorem captureOne_write (publicDir : Str) (n k : Nat) (e : Entry) (sres : ShotResult)
    (w : Bool) (m : Nat) :
    (captureOne publicDir n k e sres w m).1
      = match sres with
        | ShotResult.ok bytes =>
            if w then some (ogFilename publicDir e.route, bytes) else none
        | ShotResult.err => none := by
  cases sres <;> cases w <;> rfl

/-- Closed form of the sequential capture loop: each indexed job contributes
exactly its own write (when both the screenshot and the file write succeed)
and exactly its own progress line, independently of every other job. -/
theorem captureAux_spec (publicDir : Str) (n : Nat) (shot : Nat → ShotResult)
    (wr : Nat → Bool) (ms : Nat → Nat) (l : List (Nat × Entry)) :
    captureAux publicDir n shot wr ms l =
      ⟨l.filterMap (fun ke =>
          (captureOne publicDir n ke.1 ke.2 (shot ke.1) (wr ke.1) (ms ke.1)).1),
       l.map (fun ke =>
          (captureOne publicDir n ke.1 ke.2 (shot ke.1) (wr ke.1) (ms ke.1)).2)⟩ := by
  induction l with
  | nil => rfl
  | cons ke rest ih =>
      obtain ⟨k, e⟩ := ke
      simp only [captureAux, ih, List.map_cons, List.filterMap_cons]
      cases h1 : (captureOne publicDir n k e (shot k) (wr k) (ms k)).1 <;> rfl

/-- C3: a failing screenshot or file write is caught at its own job's
boundary: the capture pass still logs exactly one progress line per queued
job (with that job's elapsed time and the cumulative rounded percentage), a
job's line and write depend only on that job's own outcome, and the files
written are exactly those of the jobs whose screenshot and write both
succeeded. -/
theorem capture_failure_isolated (publicDir : Str) (queue : List Entry)
    (shot : Nat → ShotResult) (wr : Nat → Bool) (ms : Nat → Nat) :
    (capturePass publicDir queue shot wr ms).lines.length = queue.length
    ∧ (capturePass publicDir queue shot wr ms).lines
        = queue.enum.map (fun ke =>
            ⟨ke.2.route, ms ke.1, jsRound100 ke.1 queue.length,
             decide (ke.1 = queue.length - 1),
             match shot ke.1 with
             | ShotResult.ok _ => !(wr ke.1)
             | ShotResult.err => true⟩)
    ∧ (capturePass publicDir queue shot wr ms).writes
        = queue.enum.filterMap (fun ke =>
            match shot ke.1 with
            | ShotResult.ok bytes =>
                if wr ke.1 then some (ogFilename publicDir ke.2.route, bytes) else none
            | ShotResult.err => none) := by
  have hlines : (capturePass publicDir queue shot wr ms).lines
      = queue.enum.map (fun ke =>
          (⟨ke.2.route, ms ke.1, jsRound100 ke.1 queue.length,
            decide (ke.1 = queue.length - 1),
            match shot ke.1 with
            | ShotResult.ok _ => !(wr ke.1)
            | ShotResult.err => true⟩ : CaptureLine)) := by
    unfold capturePass
    rw [captureAux_spec]
    simp only [captureOne_line]
  refine ⟨?_, hlines, ?_⟩
  · rw [hlines, List.length_map, List.enum_length]
  · unfold capturePass
    rw [captureAux_spec]
    simp only [captureOne_write]

/-- C4: every drain that reaches the launch phase (non-empty queue, so the
installer and the preview-server spawn run) ends with the browser closed, the
preview-server subprocess killed and the queue cleared, whatever the browser
launch, completion pass and capture pass did — the `finally` clause and the
queue reset run on the thrown paths too. -/
theorem drain_teardown (publicDir : Str) (o : DrainOracles) (queue : List Job)
    (h : queue ≠ []) :
    (captureScreenshots publicDir o queue).browserOpen = false
    ∧ (captureScreenshots publicDir o queue).serverRunning = false
    ∧ (captureScreenshots publicDir o queue).queue = []
    ∧ Ev.killServer ∈ (captureScreenshots publicDir o queue).events := by
  rcases queue with _ | ⟨j, js⟩
  · exact absurd rfl h
  · unfold captureScreenshots
    rw [if_neg (by simp)]
    cases o.browserRes with
    | thrown => exact ⟨rfl, rfl, rfl, by simp⟩
    | null => exact ⟨rfl, rfl, rfl, by simp⟩
    | ok =>
        cases completionPass o.fetchHtml o.extract o.rules (j :: js) with
        | error e => exact ⟨rfl, rfl, rfl, by simp⟩
        | ok entries => exact ⟨rfl, rfl, rfl, by simp⟩

/-- Witness for C4 with a one-job queue and a browser-launch throw. -/
theorem drain_teardown_w :
    (captureScreenshots [] ⟨1, BrowserOutcome.thrown, fun _ => Except.ok [],
        fun _ => none, fun _ => [], fun _ => ShotResult.ok [], fun _ => true,
        fun _ => 0⟩ [Job.stub "/a".toList]).browserOpen = false
    ∧ (captureScreenshots [] ⟨1, BrowserOutcome.thrown, fun _ => Except.ok [],
        fun _ => none, fun _ => [], fun _ => ShotResult.ok [], fun _ => true,
        fun _ => 0⟩ [Job.stub "/a".toList]).serverRunning = false
    ∧ (captureScreenshots [] ⟨1, BrowserOutcome.thrown, fun _ => Except.ok [],
        fun _ => none, fun _ => [], fun _ => ShotResult.ok [], fun _ => true,
        fun _ => 0⟩ [Job.stub "/a".toList]).queue = []
    ∧ Ev.killServer ∈ (captureScreenshots [] ⟨1, BrowserOutcome.thrown, fun _ => Except.ok [],
        fun _ => none, fun _ => [], fun _ => ShotResult.ok [], fun _ => true,
        fun _ => 0⟩ [Job.stub "/a".toList]).events :=
  drain_teardown [] _ [Job.stub "/a".toList] (by simp)

/-- C9: a non-zero exit of the installer subprocess is logged as an error and
nothing more: for every exit code the drain goes on to spawn the preview
server and to attempt the browser launch, and the error line appears exactly
when the exit code is non-zero. -/
theorem installer_failure_nonfatal (publicDir : Str) (o : DrainOracles)
    (queue : List Job) (h : queue ≠ []) :
    Ev.spawnServer ∈ (captureScreenshots publicDir o queue).events
    ∧ Ev.attemptBrowser ∈ (captureScreenshots publicDir o queue).events
    ∧ (Ev.logErrorInstall ∈ (captureScreenshots publicDir o queue).events
        ↔ o.installExit ≠ 0) := by
  rcases queue with _ | ⟨j, js⟩
  · exact absurd rfl h
  · unfold captureScreenshots
    rw [if_neg (by simp)]
    by_cases hi : o.installExit ≠ 0
    · rw [if_pos hi]
      cases o.browserRes with
      | thrown => exact ⟨by simp, by simp, by simp [hi]⟩
      | null => exact ⟨by simp, by simp, by simp [hi]⟩
      | ok =>
          cases completionPass o.fetchHtml o.extract o.rules (j :: js) with
          | error e => exact ⟨by simp, by simp, by simp [hi]⟩
          | ok entries => exact ⟨by simp, by simp, by simp [hi]⟩
    · rw [if_neg hi]
      cases o.browserRes with
      | thrown => exact ⟨by simp, by simp, by simp [hi]⟩
      | null => exact ⟨by simp, by simp, by simp [hi]⟩
      | ok =>
          cases completionPass o.fetchHtml o.extract o.rules (j :: js) with
          | error e => exact ⟨by simp, by simp, by simp [hi]⟩
          | ok entries => exact ⟨by simp, by simp, by simp [hi]⟩

/-- Witness for C9 with a failing installer (exit code 1). -/
theorem installer_failure_nonfatal_w :
    Ev.spawnServer ∈ (captureScreenshots [] ⟨1, BrowserOutcome.ok, fun _ => Except.ok [],
        fun _ => none, fun _ => [], fun _ => ShotResult.ok [], fun _ => true,
        fun _ => 0⟩ [Job.full { route := "/a".toList, path := "/a".toList }]).events
    ∧ Ev.attemptBrowser ∈ (captureScreenshots [] ⟨1, BrowserOutcome.ok, fun _ => Except.ok [],
        fun _ => none, fun _ => [], fun _ => ShotResult.ok [], fun _ => true,
        fun _ => 0⟩ [Job.full { route := "/a".toList, path := "/a".toList }]).events
    ∧ (Ev.logErrorInstall ∈ (captureScreenshots [] ⟨1, BrowserOutcome.ok, fun _ => Except.ok [],
        fun _ => none, fun _ => [], fun _ => ShotResult.ok [], fun _ => true,
        fun _ => 0⟩ [Job.full { route := "/a".toList, path := "/a".toList }]).events
        ↔ (1 : Int) ≠ 0) :=
  installer_failure_nonfatal [] _ [Job.full { route := "/a".toList, path := "/a".toList }]
    (by simp)

/-- C8: font resolution order — inline data is returned unchanged; otherwise a
cached entry under the font's key is base64-decoded and returned; otherwise
the font is fetched from the configured local path when one is given, else
from the font endpoint parameterized by family and weight; and no execution
path ever writes to the storage. -/
theorem loadFont_resolution_order :
    (∀ (cache : Str → Option Str) (b64 : Str → List Nat) (fetchBuf : Str → List Nat)
        (font : FontConfig) (dta : List Nat), font.data = some dta →
        loadFont cache b64 fetchBuf font = (font, []))
    ∧ (∀ (cache : Str → Option Str) (b64 : Str → List Nat) (fetchBuf : Str → List Nat)
        (font : FontConfig) (k stored : Str), font.data = none →
        font.key = some k → k ≠ [] → cache k = some stored →
        loadFont cache b64 fetchBuf font
          = ({ font with data := some (b64 stored) },
             [StorageOp.hasItem k, StorageOp.getItem k]))
    ∧ (∀ (cache : Str → Option Str) (b64 : Str → List Nat) (fetchBuf : Str → List Nat)
        (font : FontConfig) (p : Str), font.data = none →
        (∀ k, font.key = some k → cache k = none) →
        font.path = some p → p ≠ [] →
        (loadFont cache b64 fetchBuf font).1 = { font with data := some (fetchBuf p) })
    ∧ (∀ (cache : Str → Option Str) (b64 : Str → List Nat) (fetchBuf : Str → List Nat)
        (font : FontConfig), font.data = none →
        (∀ k, font.key = some k → cache k = none) →
        truthyStr font.path = false →
        (loadFont cache b64 fetchBuf font).1
          = { font with data := some (fetchBuf (fontEndpoint font.name font.weight)) })
    ∧ (∀ (cache : Str → Option Str) (b64 : Str → List Nat) (fetchBuf : Str → List Nat)
        (font : FontConfig) (k v : Str),
        StorageOp.setItem k v ∉ (loadFont cache b64 fetchBuf font).2) := by
  refine ⟨?_, ?_, ?_, ?_, ?_⟩
  · intro cache b64 fetchBuf font dta hd
    simp [loadFont, hd]
  · intro cache b64 fetchBuf font k stored hd hk hkne hc
    have hke : k.isEmpty = false := by cases k with
      | nil => exact absurd rfl hkne
      | cons a l => rfl
    simp [loadFont, hd, hk, hke, hc]
  · intro cache b64 fetchBuf font p hd hmiss hp hpne
    have hpe : p.isEmpty = false := by cases p with
      | nil => exact absurd rfl hpne
      | cons a l => rfl
    cases hk : font.key with
    | none => simp [loadFont, hd, hk, truthyStr, hp, hpe]
    | some k =>
        cases hke : k.isEmpty with
        | true => simp [loadFont, hd, hk, hke, truthyStr, hp, hpe]
        | false => simp [loadFont, hd, hk, hke, hmiss k hk, truthyStr, hp, hpe]
  · intro cache b64 fetchBuf font hd hmiss htp
    cases hk : font.key with
    | none => simp [loadFont, hd, hk, htp]
    | some k =>
        cases hke : k.isEmpty with
        | true => simp [loadFont, hd, hk, hke, htp]
        | false => simp [loadFont, hd, hk, hke, hmiss k hk, htp]
  · intro cache b64 fetchBuf font k v
    by_cases hd : font.data.isSome
    · simp [loadFont, hd]
    · cases hk : font.key with
      | none =>
          cases htp : truthyStr font.path with
          | true => simp [loadFont, hd, hk, htp]
          | false => simp [loadFont, hd, hk, htp]
      | some k2 =>
          cases hke : k2.isEmpty with
          | true =>
              cases htp : truthyStr font.path with
              | true => simp [loadFont, hd, hk, hke, htp]
              | false => simp [loadFont, hd, hk, hke, htp]
          | false =>
              cases hc : cache k2 with
              | none =>
                  cases htp : truthyStr font.path with
                  | true => simp [loadFont, hd, hk, hke, hc, htp]
                  | false => simp [loadFont, hd, hk, hke, hc, htp]
              | some stored => simp [loadFont, hd, hk, hke, hc]

/-- Witness for C8: one concrete font per resolution case. -/
theorem loadFont_resolution_order_w :
    loadFont (fun _ => none) (fun _ => []) (fun _ => [])
        ⟨"Inter".toList, 400, none, none, some [1]⟩
      = (⟨"Inter".toList, 400, none, none, some [1]⟩, [])
    ∧ loadFont (fun _ => some "QUJD".toList) (fun _ => [1, 2]) (fun _ => [])
        ⟨"Inter".toList, 400, some "Inter:400".toList, none, none⟩
      = (⟨"Inter".toList, 400, some "Inter:400".toList, none, some [1, 2]⟩,
         [StorageOp.hasItem "Inter:400".toList, StorageOp.getItem "Inter:400".toList])
    ∧ (loadFont (fun _ => none) (fun _ => []) (fun p => p.map Char.toNat)
        ⟨"Inter".toList, 400, none, some "/f.ttf".toList, none⟩).1
      = ⟨"Inter".toList, 400, none, some "/f.ttf".toList,
         some ("/f.ttf".toList.map Char.toNat)⟩
    ∧ (loadFont (fun _ => none) (fun _ => []) (fun p => p.map Char.toNat)
        ⟨"Inter".toList, 400, none, none, none⟩).1
      = ⟨"Inter".toList, 400, none, none,
         some ((fontEndpoint "Inter".toList 400).map Char.toNat)⟩
    ∧ StorageOp.setItem "k".toList "v".toList ∉
        (loadFont (fun _ => none) (fun _ => []) (fun _ => [])
          ⟨"Inter".toList, 400, none, none, none⟩).2 :=
  ⟨loadFont_resolution_order.1 _ _ _ _ [1] rfl,
   loadFont_resolution_order.2.1 _ _ _ _ "Inter:400".toList "QUJD".toList rfl rfl
      (by decide) rfl,
   loadFont_resolution_order.2.2.1 _ _ _ _ "/f.ttf".toList rfl
      (fun k hk => by cases hk) rfl (by decide),
   loadFont_resolution_order.2.2.2.1 _ _ _ _ rfl (fun k hk => by cases hk) rfl,
   loadFont_resolution_order.2.2.2.2 _ _ _ _ "k".toList "v".toList⟩

end NuxtOgImage
